import Mathlib

/-!
Verification of the tool-handler core of `src/reference/solution.py`
(class `OptimizedAgent`): shipping-cost calculation with memoized zone
and rate lookups, a fan-out inventory aggregation over three warehouse
probes, and a timeout-guarded external-service check.

Python `dict`s become association lists, money becomes `ℚ` (the Python
source does decimal-looking arithmetic on floats; every value the
handlers actually produce is an exact multiple of 1/100, where float and
rational arithmetic agree), fallible operations return `Except`, and the
nondeterminism of the thread pool (which probes completed before the
overall deadline, which raised) is an explicit environment parameter.
-/

/-- Result object returned by every tool handler (`SwaigFunctionResult(text)`). -/
structure SwaigFunctionResult where
  text : String
deriving DecidableEq

/-- Python runtime errors that the embedded handlers could raise. -/
inductive PyError
  | indexError
deriving DecidableEq

/-- Equality of `Except` values is decidable when it is on both sides. -/
instance exceptDecEq {ε α : Type} [DecidableEq ε] [DecidableEq α] :
    DecidableEq (Except ε α) := fun x y =>
  match x, y with
  | Except.ok a, Except.ok b =>
      if h : a = b then Decidable.isTrue (by rw [h])
      else Decidable.isFalse (fun hc => h (Except.ok.injEq a b ▸ hc))
  | Except.error a, Except.error b =>
      if h : a = b then Decidable.isTrue (by rw [h])
      else Decidable.isFalse (fun hc => h (Except.error.injEq a b ▸ hc))
  | Except.ok _, Except.error _ => Decidable.isFalse (fun hc => Except.noConfusion hc)
  | Except.error _, Except.ok _ => Decidable.isFalse (fun hc => Except.noConfusion hc)

/-- First-match association-list lookup: the embedding of looking a key up
in a Python `dict` literal (whose keys are distinct, so first-match agrees
with `dict` semantics). -/
def assocFind {K V : Type} [DecidableEq K] (k : K) : List (K × V) → Option V
  | [] => none
  | (k', v) :: rest => if k' = k then some v else assocFind k rest

/-- Python `d.get(k, dflt)`. -/
def dictGet {K V : Type} [DecidableEq K] (d : List (K × V)) (k : K) (dflt : V) : V :=
  (assocFind k d).getD dflt

/-- The `zones` dict literal of `_get_shipping_zone` (solution.py lines 71-75). -/
def zonesTable : List (String × String) :=
  [("9", "west"), ("8", "west"), ("7", "central"),
   ("6", "central"), ("5", "central"), ("4", "central"),
   ("3", "east"), ("2", "east"), ("1", "east"), ("0", "east")]

/-- `_get_shipping_zone(zip_prefix)` (lines 67-76): zone by zip prefix,
`zones.get(zip_prefix, "standard")`.  The `lru_cache` wrapper is modelled
separately (`cachedCall`); this is the underlying pure function. -/
def _get_shipping_zone (zp : String) : String :=
  dictGet zonesTable zp "standard"

/-- The `rates` dict literal of `_get_shipping_rate` (line 82). -/
def ratesTable : List (String × ℚ) :=
  [("west", 999/100), ("central", 1199/100), ("east", 1299/100), ("standard", 1499/100)]

/-- `_get_shipping_rate(zone)` (lines 78-83): `rates.get(zone, 14.99)`. -/
def _get_shipping_rate (zone : String) : ℚ :=
  dictGet ratesTable zone (1499/100)

/-- Python `f"{total:.2f}"` for the nonnegative exact-cent amounts the
handlers produce: print the integer number of cents with two decimals. -/
def formatMoney (q : ℚ) : String :=
  let c : Int := q.num * 100 / (q.den : Int)
  let units := c / 100
  let cents := c % 100
  toString units ++ "." ++ (if cents < 10 then "0" ++ toString cents else toString cents)

/-- Python `s[0]` on a string: a one-character string, or `IndexError` when empty. -/
def strHead (s : String) : Except PyError String :=
  match s.data with
  | [] => Except.error PyError.indexError
  | c :: _ => Except.ok (String.mk [c])

/-- The value the guarded expression `zip_code[0] if zip_code else "5"`
always produces: the one-character head for a non-empty string, `"5"` for
the empty string (the only falsy string in Python). -/
def pfxOf (s : String) : String :=
  match s.data with
  | [] => "5"
  | c :: _ => String.mk [c]

/-- Arguments of the `calculate_shipping` tool: `args.get` on the two
declared parameters; `none` models an absent key. -/
structure ShippingArgs where
  zip_code : Option String
  weight : Option ℚ
deriving DecidableEq

/-- Handler `calculate_shipping(args)` (solution.py lines 168-181):
defaults `zip_code` to `"50000"` and `weight` to `1.0`, takes the first character of the zip when the zip is non-empty (else `"5"`), resolves zone and
base rate through the cached lookups, and formats
`base_rate + weight * 0.50`. -/
def calculate_shipping (args : ShippingArgs) : Except PyError SwaigFunctionResult := do
  let zip_code := args.zip_code.getD "50000"
  let weight := args.weight.getD 1
  let zipPfx ← if zip_code = "" then Except.ok "5" else strHead zip_code
  let zone := _get_shipping_zone zipPfx
  let base_rate := _get_shipping_rate zone
  let total := base_rate + weight * (1/2)
  Except.ok ⟨"Shipping to " ++ zip_code ++ " (" ++ zone ++ " zone): $" ++ formatMoney total⟩

/-- Arguments of the `get_shipping_zone` tool. -/
structure ZoneArgs where
  zip_code : Option String
deriving DecidableEq

/-- Handler `get_shipping_zone(args)` (solution.py lines 196-200). -/
def get_shipping_zone (args : ZoneArgs) : Except PyError SwaigFunctionResult := do
  let zip_code := args.zip_code.getD "50000"
  let zipPfx ← if zip_code = "" then Except.ok "5" else strHead zip_code
  let zone := _get_shipping_zone zipPfx
  Except.ok ⟨"Zip " ++ zip_code ++ " is in " ++ zone ++ " zone"⟩

/-- The `inventory` dict literal of `_check_warehouse` (solution.py line 88). -/
def inventoryTable : List (String × Int) :=
  [("A", 10), ("B", 5), ("C", 15)]

/-- `_check_warehouse(warehouse)` (lines 85-89): after a simulated 300 ms
latency (not modelled — it does not affect the returned value), returns
`inventory.get(warehouse, 0)`. -/
def _check_warehouse (warehouse : String) : Int :=
  dictGet inventoryTable warehouse 0

/-- What the thread pool delivered for one submitted probe, relative to the
overall `as_completed(futures, timeout=2)` deadline of `check_inventory`:
the future completed with a value, completed by raising an exception, or
was still pending when the deadline elapsed.  This environment parameter
is the explicit model of scheduling/failure nondeterminism. -/
inductive ProbeOutcome
  | ok (v : Int)
  | exn
  | timedOut
deriving DecidableEq

/-- A future that `as_completed` yields before the deadline (a raising
future still counts as completed). -/
def ProbeOutcome.finished : ProbeOutcome → Bool
  | .timedOut => false
  | _ => true

/-- Errors an aggregation can raise to its caller. -/
inductive AggError
  | timeoutErr
deriving DecidableEq

/-- The collection loop of `check_inventory` (solution.py lines 140-145):
`for future in as_completed(futures, timeout=2): try: total += future.result()
except Exception: pass`.  A completed future adds its value (an exception
adds nothing, caught by the inner `try`); a future still pending at the
deadline makes `as_completed` raise `TimeoutError` at the `for` statement,
outside the inner `try`, so the accumulated total is discarded and the
error propagates. -/
def collectTotal : List ProbeOutcome → Int → Except AggError Int
  | [], acc => Except.ok acc
  | ProbeOutcome.ok v :: rest, acc => collectTotal rest (acc + v)
  | ProbeOutcome.exn :: rest, acc => collectTotal rest acc
  | ProbeOutcome.timedOut :: _, _ => Except.error AggError.timeoutErr

/-- Fan-out aggregation over a list of warehouse ids: one probe per id,
reduced by the collection loop starting from `total = 0`. -/
def aggregateTotal (ids : List String) (env : String → ProbeOutcome) : Except AggError Int :=
  collectTotal (ids.map env) 0

/-- The three warehouses `check_inventory` fans out to (lines 134-138). -/
def warehouses : List String := ["A", "B", "C"]

/-- Arguments of the `check_inventory` tool. -/
structure InventoryArgs where
  sku : Option String
deriving DecidableEq

/-- Handler `check_inventory(args)` (solution.py lines 130-147): defaults
`sku` to `"unknown"`, submits probes for warehouses A, B, C, runs the
collection loop, and formats the total. -/
def check_inventory (env : String → ProbeOutcome) (args : InventoryArgs) :
    Except AggError SwaigFunctionResult :=
  let sku := args.sku.getD "unknown"
  (aggregateTotal warehouses env).map fun total =>
    ⟨"Inventory for " ++ sku ++ ": " ++ toString total ++ " total"⟩

/-- Sum of the values of the probes that completed successfully: a raising
probe contributes nothing. -/
def completedSum (l : List ProbeOutcome) : Int :=
  (l.filterMap fun o => match o with | .ok v => some v | _ => none).sum

/-- An environment is faithful when every probe either returns what
`_check_warehouse` computes for its id, raises, or misses the deadline —
i.e. probes do not invent values. -/
def FaithfulEnv (env : String → ProbeOutcome) : Prop :=
  ∀ w, env w = ProbeOutcome.ok (_check_warehouse w) ∨
       env w = ProbeOutcome.exn ∨ env w = ProbeOutcome.timedOut

/-- An environment where every probe completes normally in time. -/
def NominalEnv (env : String → ProbeOutcome) : Prop :=
  ∀ w, env w = ProbeOutcome.ok (_check_warehouse w)

/-- The sum `check_inventory` reports when nothing times out or fails. -/
def fullSum (ids : List String) : Int :=
  (ids.map _check_warehouse).sum

/-- Outcome of the `requests.get("https://httpbin.org/get", timeout=2)` call
inside `check_external_service` (solution.py lines 210-214), as delivered by
the network environment: a response, a timeout exception after 2 s, or any
other exception. -/
inductive HttpOutcome
  | success
  | timeoutErr
  | otherErr
deriving DecidableEq

/-- The guarded call itself: `requests.get` either returns a response or
raises. -/
def requests_get (o : HttpOutcome) : Except HttpOutcome Unit :=
  match o with
  | HttpOutcome.success => Except.ok ()
  | e => Except.error e

/-- Handler `check_external_service(args)` (solution.py lines 207-219): the
whole body sits under `try ... except Exception`, so every raise — timeout
included — becomes the degraded message, and a response becomes the online
message.  The handler is total: no exception crosses its boundary. -/
def check_external_service (o : HttpOutcome) : SwaigFunctionResult :=
  match requests_get o with
  | Except.ok _ => ⟨"External service: Online"⟩
  | Except.error _ => ⟨"Could not check external service. Please try again."⟩

/-- Remove the entry with the given key (first occurrence) from an
association list. -/
def lruRemove {K V : Type} [DecidableEq K] (k : K) : List (K × V) → List (K × V)
  | [] => []
  | (k', v) :: rest => if k' = k then rest else (k', v) :: lruRemove k rest

/-- State of a `functools.lru_cache(maxsize=...)` wrapper: the bounded
memo table behind `_get_shipping_zone` and `_get_shipping_rate`
(solution.py lines 67-83, `maxsize=100`).  `entries` is kept most recently
used first; the last entry is the eviction candidate. -/
structure LruCache (K V : Type) where
  maxsize : Nat
  entries : List (K × V)
deriving DecidableEq

/-- The cache as it stands right after the decorator is applied. -/
def emptyCache (K V : Type) (maxsize : Nat) : LruCache K V :=
  ⟨maxsize, []⟩

/-- One call through an `lru_cache`-wrapped pure function: on a hit, return
the stored value and move the entry to the front (most recently used); on a
miss, run `f`, evict the least recently used entry when the cache is full,
and store the new entry in front.  The third component counts how many
times the underlying function ran during this call (0 or 1). -/
def cachedCall {K V : Type} [DecidableEq K] (f : K → V) (c : LruCache K V) (k : K) :
    V × LruCache K V × Nat :=
  match assocFind k c.entries with
  | some v => (v, ⟨c.maxsize, (k, v) :: lruRemove k c.entries⟩, 0)
  | none =>
      let v := f k
      let kept := if c.maxsize ≤ c.entries.length then c.entries.dropLast else c.entries
      (v, ⟨c.maxsize, (k, v) :: kept⟩, 1)

/-- Run a sequence of calls through the cache and count how many times the
underlying function was executed for the key `k0`. -/
def callsFor {K V : Type} [DecidableEq K] (f : K → V) (c : LruCache K V)
    (ks : List K) (k0 : K) : Nat :=
  match ks with
  | [] => 0
  | k :: rest =>
      let r := cachedCall f c k
      (if k = k0 then r.2.2 else 0) + callsFor f r.2.1 rest k0

/-- Every stored value is what the underlying pure function computes for
its key — the cache-consistency invariant. -/
def CacheConsistent {K V : Type} (f : K → V) (c : LruCache K V) : Prop :=
  ∀ p ∈ c.entries, p.2 = f p.1

/-- One hundred pairwise-distinct single-character zip prefixes, none of
them `"9"` (codepoints 100-199). -/
def distinct100 : List String :=
  (List.range 100).map fun n => String.mk [Char.ofNat (100 + n)]

/-- Concrete environment: every probe completes normally. -/
def envNominal : String → ProbeOutcome :=
  fun w => ProbeOutcome.ok (_check_warehouse w)

/-- Concrete environment: probe "A" raises, the others complete normally. -/
def envAThrows : String → ProbeOutcome :=
  fun w => if w = "A" then ProbeOutcome.exn else ProbeOutcome.ok (_check_warehouse w)

/-- Concrete environment: probe "A" completes with value 0 in place of its
exception, the others complete normally. -/
def envAZero : String → ProbeOutcome :=
  fun w => if w = "A" then ProbeOutcome.ok 0 else ProbeOutcome.ok (_check_warehouse w)

/-- Concrete environment: probe "C" misses the overall deadline, the other
two complete normally (values 10 and 5). -/
def envCTimeout : String → ProbeOutcome :=
  fun w => if w = "C" then ProbeOutcome.timedOut else ProbeOutcome.ok (_check_warehouse w)

/-!
Supporting lemmas.
-/

theorem assocFind_mem {K V : Type} [DecidableEq K] {k : K} {v : V} :
    ∀ {d : List (K × V)}, assocFind k d = some v → (k, v) ∈ d := by
  intro d
  induction d with
  | nil => intro h; simp [assocFind] at h
  | cons q rest ih =>
      intro h
      obtain ⟨k', v'⟩ := q
      by_cases hk : k' = k
      · subst hk
        simp only [assocFind, if_pos rfl] at h
        injection h with hv
        subst hv
        exact List.mem_cons_self _ _
      · simp only [assocFind, if_neg hk] at h
        exact List.mem_cons_of_mem _ (ih h)

theorem lruRemove_subset {K V : Type} [DecidableEq K] (k : K) :
    ∀ (d : List (K × V)) (p : K × V), p ∈ lruRemove k d → p ∈ d := by
  intro d
  induction d with
  | nil => intro p hp; simp [lruRemove] at hp
  | cons q rest ih =>
      intro p hp
      obtain ⟨k', v'⟩ := q
      by_cases hk : k' = k
      · simp only [lruRemove, if_pos hk] at hp
        exact List.mem_cons_of_mem _ hp
      · simp only [lruRemove, if_neg hk] at hp
        rcases List.mem_cons.mp hp with h | h
        · exact h ▸ List.mem_cons_self _ _
        · exact List.mem_cons_of_mem _ (ih p h)

theorem check_warehouse_nonneg (w : String) : 0 ≤ _check_warehouse w := by
  unfold _check_warehouse dictGet
  cases h : assocFind w inventoryTable with
  | none => simp
  | some v =>
      have hv := assocFind_mem h
      simp only [Option.getD]
      simp only [inventoryTable, List.mem_cons, List.not_mem_nil, or_false,
        Prod.mk.injEq] at hv
      rcases hv with ⟨_, rfl⟩ | ⟨_, rfl⟩ | ⟨_, rfl⟩ <;> norm_num

theorem fullSum_cons (i : String) (rest : List String) :
    fullSum (i :: rest) = _check_warehouse i + fullSum rest := by
  simp [fullSum]

theorem collectTotal_error_of_unfinished :
    ∀ (l : List ProbeOutcome) (acc : Int), l.all ProbeOutcome.finished = false →
      collectTotal l acc = Except.error AggError.timeoutErr := by
  intro l
  induction l with
  | nil => intro acc h; simp at h
  | cons o rest ih =>
      intro acc h
      rw [List.all_cons] at h
      cases o with
      | timedOut => rfl
      | ok v =>
          have ho : ProbeOutcome.finished (ProbeOutcome.ok v) = true := rfl
          rw [ho, Bool.true_and] at h
          show collectTotal rest (acc + v) = Except.error AggError.timeoutErr
          exact ih _ h
      | exn =>
          have ho : ProbeOutcome.finished ProbeOutcome.exn = true := rfl
          rw [ho, Bool.true_and] at h
          show collectTotal rest acc = Except.error AggError.timeoutErr
          exact ih _ h

theorem collectTotal_nominal (env : String → ProbeOutcome) (hn : NominalEnv env) :
    ∀ (ids : List String) (acc : Int),
      collectTotal (ids.map env) acc = Except.ok (acc + fullSum ids) := by
  intro ids
  induction ids with
  | nil => intro acc; simp [fullSum, collectTotal]
  | cons i rest ih =>
      intro acc
      rw [List.map_cons, hn i]
      show collectTotal (rest.map env) (acc + _check_warehouse i) = _
      rw [ih]
      rw [fullSum_cons, add_assoc]

theorem collectTotal_le (env : String → ProbeOutcome) (hf : FaithfulEnv env) :
    ∀ (ids : List String) (acc t : Int),
      collectTotal (ids.map env) acc = Except.ok t → t ≤ acc + fullSum ids := by
  intro ids
  induction ids with
  | nil =>
      intro acc t h
      simp only [List.map_nil, collectTotal, Except.ok.injEq] at h
      simp [fullSum, ← h]
  | cons i rest ih =>
      intro acc t h
      rw [List.map_cons] at h
      rcases hf i with hi | hi | hi <;> rw [hi] at h
      · have h' : collectTotal (rest.map env) (acc + _check_warehouse i) = Except.ok t := h
        have hb := ih (acc + _check_warehouse i) t h'
        rw [fullSum_cons, ← add_assoc]
        exact hb
      · have h' : collectTotal (rest.map env) acc = Except.ok t := h
        have hb := ih acc t h'
        have hnn := check_warehouse_nonneg i
        rw [fullSum_cons]
        linarith
      · exact absurd h (by simp [collectTotal])

theorem collectTotal_exn_eq_zero (env env' : String → ProbeOutcome) (w : String)
    (h1 : env w = ProbeOutcome.exn) (h2 : env' w = ProbeOutcome.ok 0)
    (h3 : ∀ u, u ≠ w → env' u = env u) :
    ∀ (ids : List String) (acc : Int),
      collectTotal (ids.map env) acc = collectTotal (ids.map env') acc := by
  intro ids
  induction ids with
  | nil => intro acc; rfl
  | cons i rest ih =>
      intro acc
      rw [List.map_cons, List.map_cons]
      by_cases hi : i = w
      · subst hi
        rw [h1, h2]
        show collectTotal (rest.map env) acc = collectTotal (rest.map env') (acc + 0)
        rw [add_zero]
        exact ih acc
      · rw [h3 i hi]
        cases hc : env i with
        | ok v =>
            show collectTotal (rest.map env) (acc + v) = collectTotal (rest.map env') (acc + v)
            exact ih _
        | exn =>
            show collectTotal (rest.map env) acc = collectTotal (rest.map env') acc
            exact ih acc
        | timedOut => rfl

theorem strHead_eq (s : String) (h : s ≠ "") : strHead s = Except.ok (pfxOf s) := by
  unfold strHead pfxOf
  cases s with
  | mk data =>
      cases data with
      | nil => exact absurd rfl h
      | cons c cs => rfl

theorem calculate_shipping_eq (args : ShippingArgs) :
    calculate_shipping args =
      Except.ok ⟨"Shipping to " ++ args.zip_code.getD "50000" ++ " (" ++
        _get_shipping_zone (pfxOf (args.zip_code.getD "50000")) ++ " zone): $" ++
        formatMoney (_get_shipping_rate (_get_shipping_zone (pfxOf (args.zip_code.getD "50000"))) +
          args.weight.getD 1 * (1/2))⟩ := by
  simp only [calculate_shipping]
  by_cases h : args.zip_code.getD "50000" = ""
  · rw [if_pos h, h]
    rfl
  · rw [if_neg h, strHead_eq _ h]
    rfl

theorem get_shipping_zone_eq (args : ZoneArgs) :
    get_shipping_zone args =
      Except.ok ⟨"Zip " ++ args.zip_code.getD "50000" ++ " is in " ++
        _get_shipping_zone (pfxOf (args.zip_code.getD "50000")) ++ " zone"⟩ := by
  simp only [get_shipping_zone]
  by_cases h : args.zip_code.getD "50000" = ""
  · rw [if_pos h, h]
    rfl
  · rw [if_neg h, strHead_eq _ h]
    rfl

theorem cachedCall_val {K V : Type} [DecidableEq K] (f : K → V) (c : LruCache K V) (k : K)
    (h : CacheConsistent f c) : (cachedCall f c k).1 = f k := by
  rcases hf : assocFind k c.entries with _ | v
  · simp [cachedCall, hf]
  · simp only [cachedCall, hf]
    exact h (k, v) (assocFind_mem hf)

theorem cachedCall_consistent {K V : Type} [DecidableEq K] (f : K → V) (c : LruCache K V)
    (k : K) (h : CacheConsistent f c) : CacheConsistent f (cachedCall f c k).2.1 := by
  rcases hf : assocFind k c.entries with _ | v
  · intro p hp
    simp only [cachedCall, hf, List.mem_cons] at hp
    rcases hp with rfl | hp
    · rfl
    · refine h p ?_
      split at hp
      · exact List.dropLast_subset _ hp
      · exact hp
  · intro p hp
    simp only [cachedCall, hf, List.mem_cons] at hp
    rcases hp with rfl | hp
    · exact h (k, v) (assocFind_mem hf)
    · exact h p (lruRemove_subset k c.entries p hp)

theorem cachedCall_twice {K V : Type} [DecidableEq K] (f : K → V) (c : LruCache K V) (k : K) :
    (cachedCall f (cachedCall f c k).2.1 k).1 = (cachedCall f c k).1 ∧
    (cachedCall f (cachedCall f c k).2.1 k).2.2 = 0 := by
  rcases hf : assocFind k c.entries with _ | v
  · constructor <;> simp [cachedCall, hf, assocFind]
  · constructor <;> simp [cachedCall, hf, assocFind]

/-!
The claims.
-/

/-- Claim C1 (counterexample): with probes A and B completed (values 10
and 5) and probe C still pending at the overall deadline, `check_inventory`
does not return the partial sum 15 silently — the `as_completed` timeout
propagates as an error to the caller. -/
theorem check_inventory_timeout_not_partial_sum :
    check_inventory envCTimeout ⟨some "X1"⟩ = Except.error AggError.timeoutErr ∧
    aggregateTotal warehouses envCTimeout ≠ Except.ok 15 := by decide

/-- Claim C1 (amended): whenever the overall timeout elapses with at least
one probe still outstanding, `check_inventory` raises the timeout error to
its caller; the partially accumulated sum is discarded, not returned. -/
theorem check_inventory_timeout_error_surfaced (env : String → ProbeOutcome)
    (args : InventoryArgs)
    (h : (warehouses.map env).all ProbeOutcome.finished = false) :
    check_inventory env args = Except.error AggError.timeoutErr := by
  have ha : aggregateTotal warehouses env = Except.error AggError.timeoutErr :=
    collectTotal_error_of_unfinished (warehouses.map env) 0 h
  simp only [check_inventory, ha]
  rfl

/-- Claim C1 (amended, witness): the amended theorem applied to the
concrete environment where probe C misses the deadline. -/
theorem check_inventory_timeout_error_surfaced_witness :
    (warehouses.map envCTimeout).all ProbeOutcome.finished = false ∧
    check_inventory envCTimeout ⟨none⟩ = Except.error AggError.timeoutErr :=
  ⟨by decide, check_inventory_timeout_error_surfaced envCTimeout ⟨none⟩ (by decide)⟩

/-- Claim C2: an aggregation in which probe `w` raises behaves exactly
like the same aggregation with probe `w` returning 0 — the failed probe
contributes zero to the sum, and its failure is not surfaced (the outcome,
value or error, is unchanged in every respect). -/
theorem probe_failure_contributes_zero (ids : List String)
    (env env' : String → ProbeOutcome) (w : String) (args : InventoryArgs)
    (h1 : env w = ProbeOutcome.exn) (h2 : env' w = ProbeOutcome.ok 0)
    (h3 : ∀ u, u ≠ w → env' u = env u) :
    aggregateTotal ids env = aggregateTotal ids env' ∧
    check_inventory env args = check_inventory env' args := by
  constructor
  · exact collectTotal_exn_eq_zero env env' w h1 h2 h3 ids 0
  · simp only [check_inventory]
    rw [show aggregateTotal warehouses env = aggregateTotal warehouses env' from
      collectTotal_exn_eq_zero env env' w h1 h2 h3 warehouses 0]

/-- Claim C2 (witness): probe table {A:10, B:5, C:15} with probe A
throwing — the aggregation reports 20, the sum of the other two. -/
theorem probe_failure_contributes_zero_witness :
    check_inventory envAThrows ⟨some "SKU1"⟩ = check_inventory envAZero ⟨some "SKU1"⟩ ∧
    check_inventory envAThrows ⟨some "SKU1"⟩ =
      Except.ok ⟨"Inventory for SKU1: 20 total"⟩ :=
  ⟨(probe_failure_contributes_zero warehouses envAThrows envAZero "A" ⟨some "SKU1"⟩
      rfl rfl (by intro u hu; simp [envAThrows, envAZero, if_neg hu])).2,
   by decide⟩

/-- Claim C3: for every probe id set and every faithful environment (each
probe either reports the tabled value of its warehouse, raises, or times out),
a returned sum never exceeds the full sum of the per-warehouse values, and
when every probe completes normally the aggregation returns exactly the
full sum. -/
theorem aggregate_sum_bounded_full_nominal (ids : List String)
    (env : String → ProbeOutcome) (hf : FaithfulEnv env) :
    (∀ t, aggregateTotal ids env = Except.ok t → t ≤ fullSum ids) ∧
    (NominalEnv env → aggregateTotal ids env = Except.ok (fullSum ids)) := by
  constructor
  · intro t ht
    have hb := collectTotal_le env hf ids 0 t ht
    simpa using hb
  · intro hn
    have hb := collectTotal_nominal env hn ids 0
    simpa using hb

/-- Claim C3 (witness): with {A:10, B:5, C:15} and every probe completing
in time, the aggregation returns 30 and the handler reports it. -/
theorem aggregate_sum_bounded_full_nominal_witness :
    fullSum warehouses = 30 ∧
    aggregateTotal warehouses envNominal = Except.ok 30 ∧
    check_inventory envNominal ⟨some "SKU9"⟩ =
      Except.ok ⟨"Inventory for SKU9: 30 total"⟩ := by
  refine ⟨by decide, ?_, by decide⟩
  have h := (aggregate_sum_bounded_full_nominal warehouses envNominal
    (fun w => Or.inl rfl)).2 (fun w => rfl)
  rwa [show fullSum warehouses = 30 by decide] at h

/-- Claim C4: `calculate_shipping` on zip "90210", weight 2.0: the first zip
character "9" resolves to zone "west", base rate 9.99, and the
result text names the west zone with total 9.99 + 2.0*0.50 = 10.99. -/
theorem calculate_shipping_90210_west :
    strHead "90210" = Except.ok "9" ∧
    _get_shipping_zone "9" = "west" ∧
    _get_shipping_rate "west" = 999/100 ∧
    ((999 : ℚ)/100 + 2 * (1/2)) = 1099/100 ∧
    calculate_shipping ⟨some "90210", some 2⟩ =
      Except.ok ⟨"Shipping to 90210 (west zone): $10.99"⟩ := by
  refine ⟨rfl, rfl, rfl, by norm_num, ?_⟩
  have hm : formatMoney ((999 : ℚ)/100 + 2 * (1/2)) = "10.99" := by
    have h1 : ((999 : ℚ)/100 + 2 * (1/2)).num = 1099 := by norm_num
    have h2 : ((999 : ℚ)/100 + 2 * (1/2)).den = 100 := by norm_num
    simp only [formatMoney, h1, h2]
    decide
  calc calculate_shipping ⟨some "90210", some 2⟩
      = Except.ok ⟨"Shipping to 90210 (west zone): $" ++
          formatMoney ((999 : ℚ)/100 + 2 * (1/2))⟩ := rfl
    _ = Except.ok ⟨"Shipping to 90210 (west zone): $10.99"⟩ := by rw [hm]; rfl

/-- Claim C5: `calculate_shipping` never throws on a missing required
argument: every argument combination produces a normal result, an absent
`zip_code` behaves exactly as the placeholder "50000", and an absent
`weight` behaves exactly as the default 1.0. -/
theorem calculate_shipping_defaults_never_throw :
    (∀ args : ShippingArgs, ∃ r, calculate_shipping args = Except.ok r) ∧
    (∀ w, calculate_shipping ⟨none, w⟩ = calculate_shipping ⟨some "50000", w⟩) ∧
    (∀ z, calculate_shipping ⟨z, none⟩ = calculate_shipping ⟨z, some 1⟩) := by
  refine ⟨fun args => ⟨_, calculate_shipping_eq args⟩, fun w => rfl, fun z => ?_⟩
  rw [calculate_shipping_eq, calculate_shipping_eq]
  rfl

set_option maxRecDepth 100000 in
/-- Claim C6 (counterexample): the underlying function does not run at
most once per key.  With `maxsize=100` as in the source, calling the memoized
zone lookup on "9", then on 100 pairwise-distinct other prefixes, then on
"9" again evicts "9" and executes the underlying function twice for it. -/
theorem memo_eviction_recomputes_key :
    distinct100.Nodup ∧ distinct100.length = 100 ∧ "9" ∉ distinct100 ∧
    callsFor _get_shipping_zone (emptyCache String String 100)
      ("9" :: distinct100 ++ ["9"]) "9" = 2 := by decide

/-- Claim C6 (amended): every call to a consistent memoized lookup returns
exactly the value of the underlying pure function — so repeated calls with the
same key always return identical values — and consistency is preserved,
and a call immediately repeated with the same key returns the stored value
with zero executions of the underlying function.  The function can still
run more than once per key when at least `maxsize` distinct other keys are
interposed (see the counterexample). -/
theorem memo_consistent_no_consecutive_recompute {K V : Type} [DecidableEq K]
    (f : K → V) (c : LruCache K V) (k : K) (h : CacheConsistent f c) :
    (cachedCall f c k).1 = f k ∧
    CacheConsistent f (cachedCall f c k).2.1 ∧
    (cachedCall f (cachedCall f c k).2.1 k).1 = f k ∧
    (cachedCall f (cachedCall f c k).2.1 k).2.2 = 0 := by
  have h1 := cachedCall_val f c k h
  have h2 := cachedCall_consistent f c k h
  have h3 := cachedCall_twice f c k
  exact ⟨h1, h2, h3.1.trans h1, h3.2⟩

/-- Claim C6 (amended, witness): the zone lookup through a fresh
`maxsize=100` cache — first call computes "west" for "9", the immediate
second call returns "west" without running the function. -/
theorem memo_consistent_no_consecutive_recompute_witness :
    CacheConsistent _get_shipping_zone (emptyCache String String 100) ∧
    (cachedCall _get_shipping_zone (emptyCache String String 100) "9").1 = "west" ∧
    (cachedCall _get_shipping_zone
      (cachedCall _get_shipping_zone (emptyCache String String 100) "9").2.1 "9").1 = "west" ∧
    (cachedCall _get_shipping_zone
      (cachedCall _get_shipping_zone (emptyCache String String 100) "9").2.1 "9").2.2 = 0 := by
  have hc : CacheConsistent _get_shipping_zone (emptyCache String String 100) := by
    intro p hp
    simp [emptyCache] at hp
  have h := memo_consistent_no_consecutive_recompute _get_shipping_zone
    (emptyCache String String 100) "9" hc
  exact ⟨hc, h.1.trans (by decide), h.2.2.1.trans (by decide), h.2.2.2⟩

/-- Claim C8: `check_external_service` returns a well-formed text result
for every outcome of the guarded call — online text on success, the same
degraded try-again text on timeout and on any other failure — even though
the underlying `requests.get` did raise in the two failure cases; being a
total function into `SwaigFunctionResult`, it propagates no exception. -/
theorem check_external_service_always_text :
    check_external_service HttpOutcome.success = ⟨"External service: Online"⟩ ∧
    check_external_service HttpOutcome.timeoutErr =
      ⟨"Could not check external service. Please try again."⟩ ∧
    check_external_service HttpOutcome.otherErr =
      ⟨"Could not check external service. Please try again."⟩ ∧
    requests_get HttpOutcome.timeoutErr = Except.error HttpOutcome.timeoutErr ∧
    requests_get HttpOutcome.otherErr = Except.error HttpOutcome.otherErr := by
  decide

/-- Claim C9: the warehouse probe is a deterministic function of its id:
A, B and C report their tabled counts 10, 5 and 15, and every id outside
the table reports 0. -/
theorem check_warehouse_table_unknown_zero (w : String)
    (hA : w ≠ "A") (hB : w ≠ "B") (hC : w ≠ "C") :
    _check_warehouse "A" = 10 ∧ _check_warehouse "B" = 5 ∧
    _check_warehouse "C" = 15 ∧ _check_warehouse w = 0 := by
  refine ⟨by decide, by decide, by decide, ?_⟩
  simp only [_check_warehouse, dictGet, inventoryTable, assocFind]
  rw [if_neg (fun h => hA h.symm), if_neg (fun h => hB h.symm), if_neg (fun h => hC h.symm)]
  rfl

/-- Claim C9 (witness): the unknown id "D" reports 0 while "A" reports
its tabled 10. -/
theorem check_warehouse_table_unknown_zero_witness :
    _check_warehouse "D" = 0 ∧ _check_warehouse "A" = 10 :=
  ⟨(check_warehouse_table_unknown_zero "D" (by decide) (by decide) (by decide)).2.2.2,
   (check_warehouse_table_unknown_zero "D" (by decide) (by decide) (by decide)).1⟩

/-- Claim C10: on the empty-string zip code neither shipping handler
fails on indexing: the prefix falls back to "5", the zone is "central"
with base rate 11.99, both handlers return well-formed results (with the
default weight 1.0 the total is 11.99 + 0.50 = 12.49), and
`calculate_shipping` succeeds on the empty zip for every weight. -/
theorem empty_zip_falls_back_central :
    pfxOf "" = "5" ∧
    _get_shipping_zone "5" = "central" ∧
    _get_shipping_rate "central" = 1199/100 ∧
    calculate_shipping ⟨some "", none⟩ =
      Except.ok ⟨"Shipping to  (central zone): $12.49"⟩ ∧
    get_shipping_zone ⟨some ""⟩ = Except.ok ⟨"Zip  is in central zone"⟩ ∧
    (∀ w : ℚ, ∃ r, calculate_shipping ⟨some "", some w⟩ = Except.ok r) := by
  refine ⟨rfl, rfl, rfl, ?_, rfl, fun w => ⟨_, calculate_shipping_eq _⟩⟩
  have hm : formatMoney ((1199 : ℚ)/100 + 1 * (1/2)) = "12.49" := by
    have h1 : ((1199 : ℚ)/100 + 1 * (1/2)).num = 1249 := by norm_num
    have h2 : ((1199 : ℚ)/100 + 1 * (1/2)).den = 100 := by norm_num
    simp only [formatMoney, h1, h2]
    decide
  calc calculate_shipping ⟨some "", none⟩
      = Except.ok ⟨"Shipping to  (central zone): $" ++
          formatMoney ((1199 : ℚ)/100 + 1 * (1/2))⟩ := rfl
    _ = Except.ok ⟨"Shipping to  (central zone): $12.49"⟩ := by rw [hm]; rfl
